import Mathlib

set_option maxRecDepth 8000

/-!
Verification of the syllabus-scheduler pipeline (`src/main.py`).

The embedding represents Python strings as `List Char` over Unicode code
points (the program's own literals and formats are ASCII).  Library calls
made by the source are modelled by their documented CPython semantics:
`str.strip`, `str.replace(pat, "")`, `str.isalnum`, `os.path.join`,
`datetime.strptime(_, "%Y-%m-%d")` and the whitespace handling of
`json.loads`.
-/

/-- Python whitespace as used by `str.strip()`: the characters for which
CPython's `str.isspace` holds (`Py_UNICODE_ISSPACE`): `\t`, `\n`, `\x0b`,
`\x0c`, `\r`, the separators `\x1c`-`\x1f`, space, `\x85` (NEL), `\xa0`
(NBSP), and the Unicode space separators. -/
def pyIsSpace (c : Char) : Bool :=
  (9 ≤ c.toNat && c.toNat ≤ 13) || (28 ≤ c.toNat && c.toNat ≤ 32) ||
  c.toNat = 133 || c.toNat = 160 || c.toNat = 0x1680 ||
  (0x2000 ≤ c.toNat && c.toNat ≤ 0x200A) || c.toNat = 0x2028 ||
  c.toNat = 0x2029 || c.toNat = 0x202F || c.toNat = 0x205F || c.toNat = 0x3000

/-- The whitespace characters `json.loads` skips around a JSON document
(`[ \t\n\r]`, the regex `json.decoder.WHITESPACE`).  Note this is a strict
subset of the characters `str.strip()` removes. -/
def isJsonWs (c : Char) : Bool :=
  c = ' ' || c = '\t' || c = '\n' || c = '\r'

/-- Python `str.isalnum` restricted to the ASCII range (`[0-9A-Za-z]`). -/
def pyIsAlnum (c : Char) : Bool := c.isAlphanum

/-- Drop the longest run of `q`-characters from the front (Python `lstrip`). -/
def dropLeading (q : Char → Bool) (s : List Char) : List Char := s.dropWhile q

/-- Drop the longest run of `q`-characters from the back (Python `rstrip`). -/
def dropTrailing (q : Char → Bool) (s : List Char) : List Char :=
  (s.reverse.dropWhile q).reverse

/-- Python `str.strip` with character class `q`. -/
def trimBy (q : Char → Bool) (s : List Char) : List Char :=
  dropTrailing q (dropLeading q s)

/-- `str.strip()` as called on `response.text` in `main.py` line 55. -/
def pyStrip (s : List Char) : List Char := trimBy pyIsSpace s

/-- The leading/trailing whitespace skipping performed by `json.loads`. -/
def jsonTrim (s : List Char) : List Char := trimBy isJsonWs s

/-- Python `str.replace(p, "")`: delete the non-overlapping occurrences of `p`
found scanning left to right, without rescanning text created by a deletion.
The `Nat` argument is a skip counter: while it is positive the scanner is
inside an occurrence that is being deleted. -/
def delPatAux (p : List Char) : List Char → Nat → List Char
  | [], _ => []
  | _ :: r, Nat.succ k => delPatAux p r k
  | c :: r, 0 =>
    if p <+: (c :: r) then delPatAux p r (p.length - 1)
    else c :: delPatAux p r 0

/-- `s.replace(p, "")` for a non-empty pattern `p`. -/
def delPat (p s : List Char) : List Char := delPatAux p s 0

/-- The literal `"```json"` removed first on `main.py` line 55. -/
def fenceJson : List Char := "```json".toList

/-- The literal `"```"` removed second on `main.py` line 55. -/
def ticks3 : List Char := "```".toList

/-- Line 55 of `main.py`:
`response.text.strip().replace("```json", "").replace("```", "")`. -/
def cleaned (s : List Char) : List Char :=
  delPat ticks3 (delPat fenceJson (pyStrip s))

/-- A response text wrapped in Markdown code fences: prefixed with
`"```json"` and suffixed with `"```"`. -/
def wrapFence (t : List Char) : List Char := fenceJson ++ t ++ ticks3

/-- ASCII decimal digit, the `\d` of the `_strptime` regexes on this input
range. -/
def isAsciiDigit (c : Char) : Bool := '0' ≤ c && c ≤ '9'

/-- Numeric value of an ASCII digit. -/
def digitVal (c : Char) : Nat := c.toNat - 48

/-- The alternatives of the CPython `_strptime` regex group for `%m`,
`1[0-2]|0[1-9]|[1-9]`, in the order the regex engine tries them; each entry
is the month value together with the unconsumed rest of the input. -/
def monthAlts (s : List Char) : List (Nat × List Char) :=
  (match s with
   | '1' :: c :: r => if '0' ≤ c && c ≤ '2' then [(10 + digitVal c, r)] else []
   | _ => []) ++
  (match s with
   | '0' :: c :: r => if '1' ≤ c && c ≤ '9' then [(digitVal c, r)] else []
   | _ => []) ++
  (match s with
   | c :: r => if '1' ≤ c && c ≤ '9' then [(digitVal c, r)] else []
   | _ => [])

/-- The alternatives of the CPython `_strptime` regex group for `%d`,
`3[01]|[12]\d|0[1-9]|[1-9]`, in regex order. -/
def dayAlts (s : List Char) : List (Nat × List Char) :=
  (match s with
   | '3' :: c :: r => if '0' ≤ c && c ≤ '1' then [(30 + digitVal c, r)] else []
   | _ => []) ++
  (match s with
   | c1 :: c2 :: r =>
     if ('1' ≤ c1 && c1 ≤ '2') && isAsciiDigit c2 then
       [(10 * digitVal c1 + digitVal c2, r)]
     else []
   | _ => []) ++
  (match s with
   | '0' :: c :: r => if '1' ≤ c && c ≤ '9' then [(digitVal c, r)] else []
   | _ => []) ++
  (match s with
   | c :: r => if '1' ≤ c && c ≤ '9' then [(digitVal c, r)] else []
   | _ => [])

/-- First defined entry, modelling the first alternative accepted by a
backtracking regex engine. -/
def pickFirst {α : Type} : List (Option α) → Option α
  | [] => none
  | some x :: _ => some x
  | none :: rest => pickFirst rest

/-- Match `-%m-%d` against the tail of the date string, returning the first
full match in regex backtracking order (month alternatives outermost). -/
def parseMD (s : List Char) : Option (Nat × Nat) :=
  pickFirst ((monthAlts s).map fun mr =>
    match mr.2 with
    | '-' :: r3 =>
      pickFirst ((dayAlts r3).map fun dr =>
        if dr.2.isEmpty then some (mr.1, dr.1) else none)
    | _ => none)

/-- Gregorian leap year, as in `datetime`. -/
def pyIsLeap (y : Nat) : Bool := y % 4 = 0 && (y % 100 ≠ 0 || y % 400 = 0)

/-- Days in a month, as checked by the `datetime.date` constructor. -/
def pyDaysInMonth (y m : Nat) : Nat :=
  if m = 2 then (if pyIsLeap y then 29 else 28)
  else if m = 4 || m = 6 || m = 9 || m = 11 then 30
  else 31

/-- `datetime.strptime(s, "%Y-%m-%d").date()` from `main.py` line 83:
`%Y` matches exactly four digits, the `-` are literal, `%m`/`%d` follow the
`_strptime` regex alternatives, the whole string must be consumed, and the
`datetime` constructor then rejects out-of-range dates (year `0`, or a day
beyond the month's length).  Returns `some (y, m, d)` on success and `none`
where Python raises `ValueError`. -/
def parseYMD (s : List Char) : Option (Nat × Nat × Nat) :=
  match s with
  | a :: b :: c :: d :: '-' :: rest =>
    if isAsciiDigit a && isAsciiDigit b && isAsciiDigit c && isAsciiDigit d then
      match parseMD rest with
      | some (m, dv) =>
        let y := 1000 * digitVal a + 100 * digitVal b + 10 * digitVal c + digitVal d
        if 1 ≤ y && dv ≤ pyDaysInMonth y m then some (y, m, dv) else none
      | none => none
    else none
  | _ => none

/-- One extracted deadline dictionary.  Each of the three keys the code reads
may be absent (reading an absent key raises `KeyError`, which the builder's
loop catches); present values are strings. -/
structure DeadlineRecord where
  assignment_name : Option (List Char)
  due_date : Option (List Char)
  assignment_type : Option (List Char)
deriving DecidableEq

/-- One all-day calendar event as built on `main.py` lines 84-87. -/
structure CalEvent where
  evName : List Char
  beginDate : Nat × Nat × Nat
  allDay : Bool
deriving DecidableEq

/-- The f-string of `main.py` line 85:
`f"[{course_name}] - {item['assignment_name']} ({item['assignment_type']})"`. -/
def mkEventTitle (course_name an aty : List Char) : List Char :=
  "[".toList ++ course_name ++ "] - ".toList ++ an ++ " (".toList ++ aty ++ ")".toList

/-- The body of the `try` on `main.py` lines 81-88 for one record: read
`due_date` (KeyError if absent), parse it (ValueError if malformed), then
read `assignment_name` and `assignment_type` while building the title.
`none` models the caught exception path that skips the record. -/
def eventOfRecord (course_name : List Char) (item : DeadlineRecord) : Option CalEvent :=
  match item.due_date with
  | none => none
  | some ds =>
    match parseYMD ds with
    | none => none
    | some d =>
      match item.assignment_name, item.assignment_type with
      | some an, some aty => some ⟨mkEventTitle course_name an aty, d, true⟩
      | _, _ => none

/-- The `for item in deadlines` loop of `main.py` lines 80-91: each record is
processed independently in input order; a failing record is skipped and the
loop continues.  Each successfully built event is a fresh object (the `ics`
library gives every `Event` a fresh identity), so every addition to
`cal.events` keeps the event; the collection is modelled by the list of
additions. -/
def buildEvents (course_name : List Char) : List DeadlineRecord → List CalEvent
  | [] => []
  | item :: rest =>
    match eventOfRecord course_name item with
    | some e => e :: buildEvents course_name rest
    | none => buildEvents course_name rest

/-- `os.path.join` on POSIX for the two-argument relative-path case used by
the code. -/
def pyPathJoin (dir name : List Char) : List Char :=
  if dir.isEmpty then name
  else if dir.getLast? = some '/' then dir ++ name
  else dir ++ '/' :: name

/-- Observable outcome of one `generate_ical_file_tool` call: the returned
string, whether `os.makedirs` ran, the file write (path and bytes) if one
happened, and the events placed in the calendar. -/
structure GenOutcome where
  ret : List Char
  dirCreated : Bool
  written : Option (List Char × List Char)
  events : List CalEvent
deriving DecidableEq

/-- `generate_ical_file_tool` (`main.py` lines 68-101).  The serialization of
the `ics` `Calendar` object performed by `f.writelines(cal)` is abstracted as
a function `serialize` of the event sequence; every theorem below holds for
an arbitrary such function.  Mirrors the source: empty input returns `""`
before any directory or file side effect; otherwise the directory is
ensured, the loop builds the events, the file name is the course name with
all non-alphanumeric characters removed plus `"_schedule.ics"`, and the file
is written and its path returned unconditionally. -/
def generate_ical_file_tool (serialize : List CalEvent → List Char)
    (course_name : List Char) (deadlines : List DeadlineRecord)
    (output_dir : List Char) : GenOutcome :=
  if deadlines.isEmpty then ⟨[], false, none, []⟩
  else
    let evs := buildEvents course_name deadlines
    let safe_course_name := course_name.filter pyIsAlnum
    let filepath := pyPathJoin output_dir (safe_course_name ++ "_schedule.ics".toList)
    ⟨filepath, true, some (filepath, serialize evs), evs⟩

/-- Exceptions that can escape the modelled extractor fragment. -/
inductive PyExn where
  | attributeError
deriving DecidableEq

/-- The response handling of `extract_deadlines_from_syllabus_tool`
(`main.py` lines 52-65), after a completed `generate_content` call, as a
function of the response's `text` attribute (`none` when the attribute is
absent) and of the JSON parser.

Mirrors the source faithfully, including its handler:
when `text` is present, line 55 cleans it and `json.loads` either succeeds
(the data is returned) or raises `JSONDecodeError`, which the `except`
clause catches; the diagnostic `print` then evaluates `response.text`
(present, so it succeeds) and `[]` is returned — modelled as `Except.ok none`.
When `text` is absent, line 55 raises `AttributeError`, the same `except`
clause catches it, but the handler's `print` f-string evaluates
`response.text` again, raising a second `AttributeError` from inside the
handler; an exception raised inside an `except` block is not caught by the
remaining clauses of the same `try`, so it escapes the function. -/
def extract_deadlines_from_syllabus_tool {J : Type} (loads : List Char → Option J)
    (responseText : Option (List Char)) : Except PyExn (Option J) :=
  match responseText with
  | some t =>
    match loads (cleaned t) with
    | some v => Except.ok (some v)
    | none => Except.ok none
  | none => Except.error PyExn.attributeError

/-- The failure status string of `main.py` line 119. -/
def failureMessage : List Char :=
  "Could not extract any deadlines. The AI might have failed to understand the syllabus format. Please check the console for more details.".toList

/-- The success status string of `main.py` line 129. -/
def successMessage : List Char :=
  "Successfully extracted deadlines! Please review the table below and download your calendar file.".toList

/-- The triple returned by `process_syllabus`: status message, tabulated
records (the DataFrame is modelled by the record list it displays), and the
calendar file path. -/
structure ProcResult where
  status : List Char
  table : Option (List DeadlineRecord)
  filePath : Option (List Char)
deriving DecidableEq

/-- `process_syllabus` (`main.py` lines 110-129) as a function of the
extractor's already-computed result: an empty extraction returns the fixed
failure message with no table and no file; otherwise the records are
tabulated, the calendar builder runs on them with the default `"calendars"`
output directory, and the success message, table and returned path are
passed back. -/
def process_syllabus (serialize : List CalEvent → List Char)
    (course_name : List Char) (extracted_data : List DeadlineRecord) : ProcResult :=
  if extracted_data.isEmpty then ⟨failureMessage, none, none⟩
  else
    ⟨successMessage, some extracted_data,
      some (generate_ical_file_tool serialize course_name extracted_data "calendars".toList).ret⟩

/-- The on-disk state: an association of paths to file contents, newest
binding first. -/
abbrev FileStore := List (List Char × List Char)

/-- `open(path, "w")` followed by a whole-file write: the new content
replaces any previous content at the path. -/
def storeSet (st : FileStore) (p c : List Char) : FileStore := (p, c) :: st

/-- Read a file back from the store. -/
def storeGet (st : FileStore) (p : List Char) : Option (List Char) :=
  ((st.find? fun e => decide (e.1 = p)).map fun e => e.2)

/-- One pipeline run against the disk: call the calendar builder and apply
its file write (if any) to the store, returning the new store and the
builder's returned path. -/
def run_pipeline_store (serialize : List CalEvent → List Char) (st : FileStore)
    (course_name : List Char) (records : List DeadlineRecord) : FileStore × List Char :=
  let o := generate_ical_file_tool serialize course_name records "calendars".toList
  match o.written with
  | some pc => (storeSet st pc.1 pc.2, o.ret)
  | none => (st, o.ret)

/-- Body of a JSON string after its opening quote, for the fragment of JSON
used here: no escape sequences.  Returns the string's characters and the
rest of the input after the closing quote. -/
def jsonStringBody : List Char → Option (List Char × List Char)
  | [] => none
  | '"' :: r => some ([], r)
  | '\\' :: _ => none
  | c :: r =>
    match jsonStringBody r with
    | some p => some (c :: p.1, p.2)
    | none => none

/-- Comma-separated JSON strings up to the closing bracket (fuel-indexed;
the callers pass fuel exceeding the input length). -/
def jsonArrayItems : Nat → List Char → Option (List (List Char) × List Char)
  | 0, _ => none
  | Nat.succ fuel, s =>
    match s with
    | '"' :: r =>
      match jsonStringBody r with
      | some sp =>
        match sp.2 with
        | ',' :: r3 =>
          match jsonArrayItems fuel r3 with
          | some p => some (sp.1 :: p.1, p.2)
          | none => none
        | ']' :: r3 => some ([sp.1], r3)
        | _ => none
      | none => none
    | _ => none

/-- Model of `json.loads` on the fragment it is exercised on in the theorems
below: a JSON array of escape-free strings with no interior whitespace,
rejecting any unconsumed trailing input. -/
def parseStrArray (s : List Char) : Option (List (List Char)) :=
  match s with
  | '[' :: ']' :: r => if r.isEmpty then some [] else none
  | '[' :: r =>
    match jsonArrayItems (r.length + 1) r with
    | some p => if p.2.isEmpty then some p.1 else none
    | none => none
  | _ => none

/-- `json.loads` on the modelled fragment: the decoder first skips leading
JSON whitespace, decodes the document, then requires only JSON whitespace to
remain. -/
def jsonLoadsFrag (s : List Char) : Option (List (List Char)) :=
  parseStrArray (jsonTrim s)

/-- The one property of `json.loads` the response-cleanup claim rests on:
its result is unchanged by surrounding JSON whitespace (`json.loads` skips
exactly `[ \t\n\r]*` before and after the document). -/
def JsonWsInvariant {α : Type} (parse : List Char → α) : Prop :=
  ∀ w1 w2 s, w1.all isJsonWs → w2.all isJsonWs → parse (w1 ++ s ++ w2) = parse s

/-- Claim C6 as stated, for a fixed response text `t`: cleanup-then-parse of
the fenced text agrees with cleanup-then-parse of the bare text, for every
parser that is invariant under surrounding JSON whitespace (as `json.loads`
is). -/
def claimC6 (t : List Char) : Prop :=
  ∀ {α : Type} (parse : List Char → α), JsonWsInvariant parse →
    parse (cleaned (wrapFence t)) = parse (cleaned t)

/-- A trivial concrete serializer used to instantiate `serialize` in closed
counterexamples and witnesses. -/
def serNull : List CalEvent → List Char := fun _ => []

/-- Besides the event data, the ics `Calendar` serialization emits per-run
volatile values: a fresh random UID for every `VEVENT` and a `DTSTAMP`
taken from the clock at serialization time.  A run of the pipeline is
therefore modelled with the run's volatile draw passed to the serializer
alongside the event sequence. -/
def run_pipeline_store_vol (serialize : Nat → List CalEvent → List Char)
    (vol : Nat) (st : FileStore) (course_name : List Char)
    (records : List DeadlineRecord) : FileStore × List Char :=
  run_pipeline_store (serialize vol) st course_name records

/-- Claim C8 as stated, over the volatile-aware serialization model: two
successive runs on the same course name and the same non-empty records
return the same path and leave byte-equivalent content at it, whatever
volatile values the two runs draw. -/
def claimC8 : Prop :=
  ∀ (serialize : Nat → List CalEvent → List Char) (v1 v2 : Nat) (st : FileStore)
    (course : List Char) (r : DeadlineRecord) (rs : List DeadlineRecord),
    (run_pipeline_store_vol serialize v2
        (run_pipeline_store_vol serialize v1 st course (r :: rs)).1 course (r :: rs)).2
      = (run_pipeline_store_vol serialize v1 st course (r :: rs)).2 ∧
    storeGet (run_pipeline_store_vol serialize v2
          (run_pipeline_store_vol serialize v1 st course (r :: rs)).1 course (r :: rs)).1
        (run_pipeline_store_vol serialize v2
          (run_pipeline_store_vol serialize v1 st course (r :: rs)).1 course (r :: rs)).2
      = storeGet (run_pipeline_store_vol serialize v1 st course (r :: rs)).1
          (run_pipeline_store_vol serialize v1 st course (r :: rs)).2

/-- Claim C4: calling the calendar builder with an empty records sequence
returns an empty result immediately, creates no file and creates no output
directory. -/
theorem c4_empty_records :
    ∀ (serialize : List CalEvent → List Char) (course dir : List Char),
      (generate_ical_file_tool serialize course [] dir).ret = [] ∧
      (generate_ical_file_tool serialize course [] dir).dirCreated = false ∧
      (generate_ical_file_tool serialize course [] dir).written = none :=
  fun _ _ _ => ⟨rfl, rfl, rfl⟩

/-- Claim C7: whenever the extractor yields an empty sequence, the
orchestrator returns the fixed failure status message together with no table
and no file path, for every course name. -/
theorem c7_empty_extraction :
    ∀ (serialize : List CalEvent → List Char) (course : List Char),
      process_syllabus serialize course [] =
        ⟨failureMessage, none, none⟩ :=
  fun _ _ => rfl

/-- Claim C5: for every course name the output file name is the course name
with all non-alphanumeric characters removed followed by the literal
`"_schedule.ics"`; concretely, `"CS 101: Intro!"` yields
`CS101Intro_schedule.ics`. -/
theorem c5_sanitized_filename :
    (∀ (serialize : List CalEvent → List Char) (course dir : List Char)
        (r : DeadlineRecord) (rs : List DeadlineRecord),
      (generate_ical_file_tool serialize course (r :: rs) dir).ret =
        pyPathJoin dir (course.filter pyIsAlnum ++ "_schedule.ics".toList)) ∧
    "CS 101: Intro!".toList.filter pyIsAlnum ++ "_schedule.ics".toList =
      "CS101Intro_schedule.ics".toList := by
  constructor
  · intro serialize course dir r rs
    simp [generate_ical_file_tool]
  · decide

/-- Claim C1, amended: the calendar builder returns the empty string exactly
when the input records sequence is empty; for a non-empty records sequence
it returns the file path and writes the serialized calendar even when no
record survives date parsing. -/
theorem c1_amended :
    ∀ (serialize : List CalEvent → List Char) (course : List Char)
      (records : List DeadlineRecord) (dir : List Char),
      ((generate_ical_file_tool serialize course records dir).ret =
        if records.isEmpty then []
        else pyPathJoin dir (course.filter pyIsAlnum ++ "_schedule.ics".toList)) ∧
      ((generate_ical_file_tool serialize course records dir).written =
        if records.isEmpty then none
        else some (pyPathJoin dir (course.filter pyIsAlnum ++ "_schedule.ics".toList),
          serialize (buildEvents course records))) := by
  intro serialize course records dir
  cases records <;> simp [generate_ical_file_tool]

/-- Claim C1 fails on the code: a non-empty records sequence in which no
record survives due-date parsing (here one record with the malformed date
`"2025-13-40"`) still makes the builder write a file and return its path,
not the empty string. -/
theorem c1_counterexample :
    (∀ x ∈ [(⟨some "A".toList, some "2025-13-40".toList, some "Quiz".toList⟩ : DeadlineRecord)],
        eventOfRecord "CS".toList x = none) ∧
    (generate_ical_file_tool serNull "CS".toList
        [⟨some "A".toList, some "2025-13-40".toList, some "Quiz".toList⟩]
        "calendars".toList).events = [] ∧
    (generate_ical_file_tool serNull "CS".toList
        [⟨some "A".toList, some "2025-13-40".toList, some "Quiz".toList⟩]
        "calendars".toList).ret = "calendars/CS_schedule.ics".toList ∧
    (generate_ical_file_tool serNull "CS".toList
        [⟨some "A".toList, some "2025-13-40".toList, some "Quiz".toList⟩]
        "calendars".toList).written ≠ none := by
  refine ⟨?_, by decide, by decide, by decide⟩
  decide

/-- Claim C2: a record whose due date fails the strict date parse is
skipped while a valid record still yields its event, so the calendar holds
exactly one all-day event, titled from the course name, assignment name and
assignment type, dated with the parsed due date. -/
theorem c2_skip_invalid (course nA tA bad nB dB tB : List Char) (y m d : Nat)
    (h1 : parseYMD bad = none) (h2 : parseYMD dB = some (y, m, d)) :
    buildEvents course [⟨some nA, some bad, some tA⟩, ⟨some nB, some dB, some tB⟩]
      = [⟨mkEventTitle course nB tB, (y, m, d), true⟩] ∧
    ∀ (serialize : List CalEvent → List Char) (dir : List Char),
      (generate_ical_file_tool serialize course
          [⟨some nA, some bad, some tA⟩, ⟨some nB, some dB, some tB⟩] dir).events
        = [⟨mkEventTitle course nB tB, (y, m, d), true⟩] := by
  constructor
  · simp [buildEvents, eventOfRecord, h1, h2]
  · intro serialize dir
    simp [generate_ical_file_tool, buildEvents, eventOfRecord, h1, h2]

/-- Witness for C2 at the claim's concrete input: `"2025-13-40"` fails the
date parse, `"2025-10-01"` parses, and the builder produces exactly the one
event titled `"[CS] - B (Exam)"`. -/
theorem c2_witness :
    parseYMD "2025-13-40".toList = none ∧
    parseYMD "2025-10-01".toList = some (2025, 10, 1) ∧
    buildEvents "CS".toList
        [⟨some "A".toList, some "2025-13-40".toList, some "Quiz".toList⟩,
         ⟨some "B".toList, some "2025-10-01".toList, some "Exam".toList⟩]
      = [⟨"[CS] - B (Exam)".toList, (2025, 10, 1), true⟩] :=
  ⟨by decide, by decide,
    ((c2_skip_invalid "CS".toList "A".toList "Quiz".toList "2025-13-40".toList
        "B".toList "2025-10-01".toList "Exam".toList 2025 10 1
        (by decide) (by decide)).1).trans (by decide)⟩

/-- Claim C3 is right and the code is wrong.  The `except` clause of the
extractor names `AttributeError` precisely to absorb a response without a
`text` attribute, but its diagnostic `print` evaluates `response.text`
again, so on that input the function raises instead of returning the empty
sequence; the JSON-parse-failure half of the claim does hold (second
conjunct). -/
theorem c3_missing_text_attribute :
    extract_deadlines_from_syllabus_tool (fun _ : List Char => (none : Option Unit)) none
      = Except.error PyExn.attributeError ∧
    extract_deadlines_from_syllabus_tool (fun _ : List Char => (none : Option Unit))
        (some "garbage".toList)
      = Except.ok none :=
  ⟨rfl, rfl⟩

/-- Claim C8, amended: the two runs return the same file path, each run
overwrites the file with the serialization (under that run's volatile draw)
of the same event sequence — so no accumulation of duplicate events ever
occurs — and the bytes are equivalent exactly up to the serializer's
per-run volatile inputs: a rerun drawing the same volatile value
reproduces the content byte for byte.  Holds for every serialization
function. -/
theorem c8_amended (serialize : Nat → List CalEvent → List Char) (v1 v2 : Nat)
    (st : FileStore) (course : List Char) (r : DeadlineRecord) (rs : List DeadlineRecord) :
    (run_pipeline_store_vol serialize v2
        (run_pipeline_store_vol serialize v1 st course (r :: rs)).1 course (r :: rs)).2
      = (run_pipeline_store_vol serialize v1 st course (r :: rs)).2 ∧
    storeGet (run_pipeline_store_vol serialize v1 st course (r :: rs)).1
        (run_pipeline_store_vol serialize v1 st course (r :: rs)).2
      = some (serialize v1 (buildEvents course (r :: rs))) ∧
    storeGet (run_pipeline_store_vol serialize v2
          (run_pipeline_store_vol serialize v1 st course (r :: rs)).1 course (r :: rs)).1
        (run_pipeline_store_vol serialize v2
          (run_pipeline_store_vol serialize v1 st course (r :: rs)).1 course (r :: rs)).2
      = some (serialize v2 (buildEvents course (r :: rs))) ∧
    storeGet (run_pipeline_store_vol serialize v1
          (run_pipeline_store_vol serialize v1 st course (r :: rs)).1 course (r :: rs)).1
        (run_pipeline_store_vol serialize v1
          (run_pipeline_store_vol serialize v1 st course (r :: rs)).1 course (r :: rs)).2
      = storeGet (run_pipeline_store_vol serialize v1 st course (r :: rs)).1
          (run_pipeline_store_vol serialize v1 st course (r :: rs)).2 := by
  refine ⟨rfl, ?_, ?_, ?_⟩ <;>
    simp [run_pipeline_store_vol, run_pipeline_store, generate_ical_file_tool,
      storeGet, storeSet, List.find?]

/-- Claim C8 as stated is false: a serializer that records the run's
volatile draw in the output — as the ics library records a fresh UID and
`DTSTAMP` inside every `VEVENT` — yields different bytes on two runs that
draw different values, here at one valid record with draws `0` and `1`. -/
theorem c8_counterexample : ¬ claimC8 := by
  intro h
  have h2 := (h (fun v _ => List.replicate v 'u') 0 1 [] "CS".toList
    ⟨some "A".toList, some "2025-10-01".toList, some "Quiz".toList⟩ []).2
  exact absurd h2 (by decide)

/-- Claim C9: the builder's loop adds events in input order with no sorting
and no deduplication — it is exactly an order-preserving `filterMap` of the
per-record event construction — and two identical valid records yield two
separate identical events. -/
theorem c9_input_order :
    (∀ (course : List Char) (records : List DeadlineRecord),
      buildEvents course records = records.filterMap (eventOfRecord course)) ∧
    buildEvents "CS".toList
        [⟨some "HW".toList, some "2025-10-01".toList, some "Quiz".toList⟩,
         ⟨some "HW".toList, some "2025-10-01".toList, some "Quiz".toList⟩]
      = [⟨"[CS] - HW (Quiz)".toList, (2025, 10, 1), true⟩,
         ⟨"[CS] - HW (Quiz)".toList, (2025, 10, 1), true⟩] := by
  constructor
  · intro course records
    induction records with
    | nil => rfl
    | cons item rest ih =>
      cases h : eventOfRecord course item <;>
        simp [buildEvents, List.filterMap_cons, h, ih]
  · decide

/-- Unfolding: a positive skip counter just discards characters. -/
theorem delPatAux_skip (p : List Char) : ∀ (r : List Char) (m : Nat),
    delPatAux p r m = delPat p (List.drop m r) := by
  intro r
  induction r with
  | nil => intro m; cases m <;> rfl
  | cons c r ih =>
    intro m
    cases m with
    | zero => rfl
    | succ k =>
      rw [List.drop_succ_cons]
      simp only [delPatAux]
      exact ih k

/-- `replace` on the empty string. -/
theorem delPat_nil (p : List Char) : delPat p [] = [] := rfl

/-- `replace` step when the pattern does not occur at the current position. -/
theorem delPat_cons_neg {p : List Char} {c : Char} {r : List Char}
    (h : ¬ p <+: (c :: r)) : delPat p (c :: r) = c :: delPat p r := by
  simp only [delPat, delPatAux, if_neg h]

/-- `replace` step when the pattern occurs at the current position: the
occurrence is deleted and scanning resumes after it. -/
theorem delPat_cons_pos {p : List Char} (hp : p ≠ []) {c : Char} {r : List Char}
    (h : p <+: (c :: r)) : delPat p (c :: r) = delPat p (List.drop p.length (c :: r)) := by
  obtain ⟨a, q, rfl⟩ : ∃ a q, p = a :: q := by
    cases p with
    | nil => exact absurd rfl hp
    | cons a q => exact ⟨a, q, rfl⟩
  simp only [delPat, delPatAux, if_pos h]
  rw [delPatAux_skip]
  rfl

/-- `delPat_cons_pos` for any non-empty string with the pattern at its head. -/
theorem delPat_pos {p : List Char} (hp : p ≠ []) {s : List Char} (h : p <+: s) :
    delPat p s = delPat p (List.drop p.length s) := by
  cases s with
  | nil =>
    have : p = [] := List.prefix_nil.mp h
    exact absurd this hp
  | cons c r => exact delPat_cons_pos hp h

/-- If no non-empty string is simultaneously a prefix of `w` and a suffix of
`p`, then an occurrence of `p` in `r ++ w` beginning inside `r` lies wholly
inside `r`. -/
theorem no_cross_of_mid {p w : List Char}
    (hvan : ∀ v : List Char, v <+: w → v <:+ p → v = []) :
    ∀ r : List Char, p <+: r ++ w → p <+: r := by
  intro r h
  obtain ⟨u, hu⟩ := h
  rcases List.append_eq_append_iff.mp hu with ⟨a', ha1, _⟩ | ⟨c', hc1, hc2⟩
  · exact ⟨a', ha1.symm⟩
  · have h1 : c' <+: w := ⟨u, hc2.symm⟩
    have h2 : c' <:+ p := ⟨r, hc1.symm⟩
    have h3 := hvan c' h1 h2
    subst h3
    rw [List.append_nil] at hc1
    rw [hc1]

/-- Character-class disjointness rules out shared prefix/suffix pieces. -/
theorem van_disjoint {q : Char → Bool} {p w : List Char}
    (hp : ∀ c ∈ p, q c = false) (hw : ∀ c ∈ w, q c = true) :
    ∀ v : List Char, v <+: w → v <:+ p → v = [] := by
  intro v hvw hvp
  cases v with
  | nil => rfl
  | cons a v' =>
    have ha1 : a ∈ w := hvw.subset (List.mem_cons_self a v')
    have ha2 : a ∈ p := hvp.subset (List.mem_cons_self a v')
    have hf := hp a ha2
    have ht := hw a ha1
    rw [hf] at ht
    cases ht

/-- The prefixes of `"```"`. -/
theorem prefix_enum_ticks : ∀ {X : List Char}, X <+: ticks3 →
    X = [] ∨ X = ['`'] ∨ X = ['`', '`'] ∨ X = ['`', '`', '`'] := by
  have ht : (ticks3 : List Char) = '`' :: '`' :: '`' :: [] := by decide
  intro X h
  rcases X with _ | ⟨a, _ | ⟨b, _ | ⟨c, _ | ⟨d, X'⟩⟩⟩⟩
  · exact Or.inl rfl
  · rw [ht, List.cons_prefix_cons] at h
    rw [h.1]
    exact Or.inr (Or.inl rfl)
  · rw [ht, List.cons_prefix_cons] at h
    obtain ⟨rfl, h⟩ := h
    rw [List.cons_prefix_cons] at h
    rw [h.1]
    exact Or.inr (Or.inr (Or.inl rfl))
  · rw [ht, List.cons_prefix_cons] at h
    obtain ⟨rfl, h⟩ := h
    rw [List.cons_prefix_cons] at h
    obtain ⟨rfl, h⟩ := h
    rw [List.cons_prefix_cons] at h
    rw [h.1]
    exact Or.inr (Or.inr (Or.inr rfl))
  · have := h.length_le
    rw [ht] at this
    simp at this

/-- No non-empty string is both a prefix of `"```"` and a suffix of
`"```json"` (whose last character is `n`, not a backtick). -/
theorem van_ticks_fence :
    ∀ v : List Char, v <+: ticks3 → v <:+ fenceJson → v = [] := by
  intro v hp hs
  rcases prefix_enum_ticks hp with rfl | rfl | rfl | rfl
  · rfl
  · exact absurd hs (by decide)
  · exact absurd hs (by decide)
  · exact absurd hs (by decide)

/-- Bounded-length core of `delPat_append`. -/
theorem delPat_append_aux {p : List Char} (hp : p ≠ []) {w : List Char}
    (hcross : ∀ r, p <+: r ++ w → p <+: r) :
    ∀ (n : Nat) (s : List Char), s.length ≤ n →
      delPat p (s ++ w) = delPat p s ++ delPat p w := by
  intro n
  induction n with
  | zero =>
    intro s hs
    have h0 : s = [] := List.length_eq_zero.mp (Nat.le_zero.mp hs)
    subst h0
    rfl
  | succ n ih =>
    intro s hs
    by_cases hpre : p <+: s
    · have hslen : p.length ≤ s.length := hpre.length_le
      have hplen : 1 ≤ p.length := by
        cases p with
        | nil => exact absurd rfl hp
        | cons a q => simp
      have h2 : p <+: s ++ w := hpre.trans (List.prefix_append s w)
      rw [delPat_pos hp h2, delPat_pos hp hpre, List.drop_append_eq_append_drop,
        Nat.sub_eq_zero_of_le hslen, List.drop_zero]
      apply ih
      rw [List.length_drop]
      omega
    · cases s with
      | nil => rfl
      | cons c r =>
        have hnot : ¬ p <+: c :: (r ++ w) := by
          intro hcontra
          exact hpre (hcross _ (by rwa [List.cons_append]))
        rw [List.cons_append, delPat_cons_neg hnot, delPat_cons_neg hpre,
          ih r (by simp at hs; omega)]
        rfl

/-- If no occurrence of `p` can cross from `s` into `w`, deleting `p` from
`s ++ w` splits into the two independent deletions. -/
theorem delPat_append {p : List Char} (hp : p ≠ []) {w : List Char}
    (hcross : ∀ r, p <+: r ++ w → p <+: r) (s : List Char) :
    delPat p (s ++ w) = delPat p s ++ delPat p w :=
  delPat_append_aux hp hcross s.length s le_rfl

/-- A leading block of characters different from the pattern's head passes
through `replace` untouched. -/
theorem delPat_pass_left {a : Char} {p' : List Char} : ∀ (w : List Char),
    (∀ c ∈ w, c ≠ a) → ∀ (s : List Char),
    delPat (a :: p') (w ++ s) = w ++ delPat (a :: p') s := by
  intro w
  induction w with
  | nil => intro _ s; rfl
  | cons c w' ih =>
    intro hw s
    have hne : ¬ (a :: p') <+: c :: (w' ++ s) := by
      rw [List.cons_prefix_cons]
      rintro ⟨h1, -⟩
      exact hw c (List.mem_cons_self c w') h1.symm
    rw [List.cons_append, delPat_cons_neg hne,
      ih (fun x hx => hw x (List.mem_cons_of_mem _ hx)) s]
    rfl

/-- A string with no occurrence of the pattern's head character is unchanged
by `replace`. -/
theorem delPat_id_of_ne {a : Char} {p' : List Char} {w : List Char}
    (hw : ∀ c ∈ w, c ≠ a) : delPat (a :: p') w = w := by
  have h := @delPat_pass_left a p' w hw []
  simpa [delPat_nil] using h

/-- Appending one literal `"```"` to a string and deleting all `"```"` gives
the same result as deleting from the string alone: the appended backticks
are always consumed, whether or not an occurrence crosses the boundary. -/
theorem delPat_ticks_append_ticks : ∀ X : List Char,
    delPat ticks3 (X ++ ticks3) = delPat ticks3 X := by
  have hne : (ticks3 : List Char) ≠ [] := by decide
  suffices H : ∀ (n : Nat) (X : List Char), X.length ≤ n →
      delPat ticks3 (X ++ ticks3) = delPat ticks3 X by
    intro X
    exact H X.length X le_rfl
  intro n
  induction n with
  | zero =>
    intro X hX
    have h0 : X = [] := List.length_eq_zero.mp (Nat.le_zero.mp hX)
    subst h0
    decide
  | succ n ih =>
    intro X hX
    by_cases h3 : ticks3 <+: X
    · obtain ⟨u, hu⟩ := h3
      have hul : u.length ≤ n := by
        have := congrArg List.length hu
        simp [ticks3] at this
        omega
      rw [← hu, List.append_assoc,
        delPat_pos hne (List.prefix_append _ _), List.drop_left,
        delPat_pos hne (List.prefix_append _ _), List.drop_left]
      exact ih u hul
    · by_cases h4 : ticks3 <+: X ++ ticks3
      · have hXt : X <+: ticks3 := by
          have h1 : X <+: X ++ ticks3 := List.prefix_append _ _
          apply List.prefix_of_prefix_length_le h1 h4
          by_contra hlen
          push_neg at hlen
          have : ticks3 <+: X :=
            List.prefix_of_prefix_length_le h4 h1 (Nat.le_of_lt hlen)
          exact h3 this
        rcases prefix_enum_ticks hXt with rfl | rfl | rfl | rfl
        · decide
        · decide
        · decide
        · exact absurd (by decide : (ticks3 : List Char) <+: ['`', '`', '`']) h3
      · cases X with
        | nil => exact absurd (by decide : (ticks3 : List Char) <+: [] ++ ticks3) h4
        | cons c r =>
          have h4' : ¬ ticks3 <+: c :: (r ++ ticks3) := by
            rwa [List.cons_append] at h4
          rw [List.cons_append, delPat_cons_neg h4', delPat_cons_neg h3,
            ih r (by simp at hX; omega)]

/-- Every character kept by `takeWhile` satisfies the predicate. -/
theorem mem_takeWhile_sat {q : Char → Bool} : ∀ (l : List Char),
    ∀ c ∈ l.takeWhile q, q c = true := by
  intro l
  induction l with
  | nil => intro c hc; cases hc
  | cons a l ih =>
    intro c hc
    rw [List.takeWhile_cons] at hc
    by_cases hqa : q a = true
    · rw [if_pos hqa] at hc
      rcases List.mem_cons.mp hc with rfl | hc
      · exact hqa
      · exact ih c hc
    · rw [if_neg hqa] at hc
      cases hc

/-- `dropWhile` is the identity when the head fails the predicate. -/
theorem dropWhile_eq_self {q : Char → Bool} {s : List Char}
    (h : ∀ a, s.head? = some a → q a = false) : s.dropWhile q = s := by
  cases s with
  | nil => rfl
  | cons c r =>
    rw [List.dropWhile_cons, if_neg]
    rw [h c rfl]
    simp

/-- `dropWhile` jumps over a block of satisfying characters. -/
theorem dropWhile_append_sat {q : Char → Bool} : ∀ {w : List Char},
    (∀ c ∈ w, q c = true) → ∀ (s : List Char),
    (w ++ s).dropWhile q = s.dropWhile q := by
  intro w
  induction w with
  | nil => intro _ s; rfl
  | cons c w' ih =>
    intro hw s
    rw [List.cons_append, List.dropWhile_cons,
      if_pos (hw c (List.mem_cons_self c w')),
      ih (fun x hx => hw x (List.mem_cons_of_mem _ hx)) s]

/-- `strip` with class `q` absorbs any `q`-blocks added at either end. -/
theorem trimBy_absorb {q : Char → Bool} {w1 w2 : List Char}
    (h1 : ∀ c ∈ w1, q c = true) (h2 : ∀ c ∈ w2, q c = true) (s : List Char) :
    trimBy q (w1 ++ s ++ w2) = trimBy q s := by
  unfold trimBy dropLeading dropTrailing
  rw [List.append_assoc, dropWhile_append_sat h1]
  rw [List.dropWhile_append]
  by_cases hse : (s.dropWhile q).isEmpty
  · rw [if_pos hse]
    have hw2nil : w2.dropWhile q = [] := List.dropWhile_eq_nil_iff.mpr h2
    rw [hw2nil]
    have hsnil : s.dropWhile q = [] := by
      cases hdw : s.dropWhile q with
      | nil => rfl
      | cons x xs => rw [hdw] at hse; simp at hse
    rw [hsnil]
  · rw [if_neg hse]
    rw [List.reverse_append, dropWhile_append_sat (by
      intro c hc
      rw [List.mem_reverse] at hc
      exact h2 c hc)]

/-- `strip()` leaves the fenced response unchanged: it begins and ends with
a backtick. -/
theorem pyStrip_wrapFence (t : List Char) : pyStrip (wrapFence t) = wrapFence t := by
  have hh : (wrapFence t).head? = some '`' := by
    unfold wrapFence
    rw [List.append_assoc, List.head?_append,
      show (fenceJson : List Char).head? = some '`' from by decide]
    rfl
  have hl : (wrapFence t).getLast? = some '`' := by
    unfold wrapFence
    rw [List.getLast?_append_of_ne_nil _ (by decide : (ticks3 : List Char) ≠ [])]
    decide
  have e1 : dropLeading pyIsSpace (wrapFence t) = wrapFence t := by
    unfold dropLeading
    apply dropWhile_eq_self
    intro a ha
    rw [hh] at ha
    injection ha with ha'
    rw [← ha']
    decide
  show dropTrailing pyIsSpace (dropLeading pyIsSpace (wrapFence t)) = wrapFence t
  rw [e1]
  unfold dropTrailing
  rw [dropWhile_eq_self, List.reverse_reverse]
  intro a ha
  rw [List.head?_reverse, hl] at ha
  injection ha with ha'
  rw [← ha']
  decide

/-- Decomposition of a string at its python-whitespace margins. -/
theorem split_ws (t : List Char) :
    t = t.takeWhile pyIsSpace ++
      (((t.dropWhile pyIsSpace).reverse.dropWhile pyIsSpace).reverse ++
        ((t.dropWhile pyIsSpace).reverse.takeWhile pyIsSpace).reverse) := by
  conv_lhs => rw [← List.takeWhile_append_dropWhile pyIsSpace t]
  congr 1
  conv_lhs => rw [← List.reverse_reverse (t.dropWhile pyIsSpace),
    ← List.takeWhile_append_dropWhile pyIsSpace (t.dropWhile pyIsSpace).reverse]
  rw [List.reverse_append]

/-- A whitespace block passes through the `"```json"` deletion. -/
theorem delPat_fence_pass (w s : List Char) (hw : ∀ c ∈ w, pyIsSpace c = true) :
    delPat fenceJson (w ++ s) = w ++ delPat fenceJson s := by
  rw [show (fenceJson : List Char) = '`' :: "``json".toList from by decide]
  exact delPat_pass_left w
    (fun c hc hEq => absurd (hw c hc) (by rw [hEq]; decide)) s

/-- A whitespace block passes through the `"```"` deletion. -/
theorem delPat_ticks_pass (w s : List Char) (hw : ∀ c ∈ w, pyIsSpace c = true) :
    delPat ticks3 (w ++ s) = w ++ delPat ticks3 s := by
  rw [show (ticks3 : List Char) = '`' :: "``".toList from by decide]
  exact delPat_pass_left w
    (fun c hc hEq => absurd (hw c hc) (by rw [hEq]; decide)) s

/-- A trailing whitespace block is untouched by the `"```json"` deletion. -/
theorem delPat_fence_append_ws (s w : List Char) (hw : ∀ c ∈ w, pyIsSpace c = true) :
    delPat fenceJson (s ++ w) = delPat fenceJson s ++ w := by
  rw [delPat_append (by decide)
    (no_cross_of_mid (van_disjoint (by decide) hw)) s]
  congr 1
  rw [show (fenceJson : List Char) = '`' :: "``json".toList from by decide]
  exact delPat_id_of_ne (fun c hc hEq => absurd (hw c hc) (by rw [hEq]; decide))

/-- A trailing whitespace block is untouched by the `"```"` deletion. -/
theorem delPat_ticks_append_ws (s w : List Char) (hw : ∀ c ∈ w, pyIsSpace c = true) :
    delPat ticks3 (s ++ w) = delPat ticks3 s ++ w := by
  rw [delPat_append (by decide)
    (no_cross_of_mid (van_disjoint (by decide) hw)) s]
  congr 1
  rw [show (ticks3 : List Char) = '`' :: "``".toList from by decide]
  exact delPat_id_of_ne (fun c hc hEq => absurd (hw c hc) (by rw [hEq]; decide))

/-- Deleting `"```json"` from an arbitrary text only acts on its stripped
core; the whitespace margins pass through. -/
theorem delPat_fence_decomp (t : List Char) :
    delPat fenceJson t =
      t.takeWhile pyIsSpace ++
        (delPat fenceJson (pyStrip t) ++
          ((t.dropWhile pyIsSpace).reverse.takeWhile pyIsSpace).reverse) := by
  have hw1 : ∀ c ∈ t.takeWhile pyIsSpace, pyIsSpace c = true := mem_takeWhile_sat t
  have hw2 : ∀ c ∈ ((t.dropWhile pyIsSpace).reverse.takeWhile pyIsSpace).reverse,
      pyIsSpace c = true := by
    intro c hc
    rw [List.mem_reverse] at hc
    exact mem_takeWhile_sat _ c hc
  conv_lhs => rw [split_ws t]
  rw [delPat_fence_pass _ _ hw1, delPat_fence_append_ws _ _ hw2]
  rfl

/-- The cleanup of a fenced response is the cleanup of the bare response
surrounded by the bare response's own whitespace margins. -/
theorem cleaned_wrapFence (t : List Char) :
    cleaned (wrapFence t) =
      t.takeWhile pyIsSpace ++ cleaned t ++
        ((t.dropWhile pyIsSpace).reverse.takeWhile pyIsSpace).reverse := by
  have hfence_ne : (fenceJson : List Char) ≠ [] := by decide
  have hw1 : ∀ c ∈ t.takeWhile pyIsSpace, pyIsSpace c = true := mem_takeWhile_sat t
  have hw2 : ∀ c ∈ ((t.dropWhile pyIsSpace).reverse.takeWhile pyIsSpace).reverse,
      pyIsSpace c = true := by
    intro c hc
    rw [List.mem_reverse] at hc
    exact mem_takeWhile_sat _ c hc
  show delPat ticks3 (delPat fenceJson (pyStrip (wrapFence t))) = _
  rw [pyStrip_wrapFence]
  show delPat ticks3 (delPat fenceJson (fenceJson ++ t ++ ticks3)) = _
  rw [List.append_assoc,
    delPat_pos hfence_ne (List.prefix_append _ _), List.drop_left,
    delPat_append hfence_ne (no_cross_of_mid van_ticks_fence) t,
    show delPat fenceJson ticks3 = ticks3 from by decide,
    delPat_ticks_append_ticks,
    delPat_fence_decomp t,
    delPat_ticks_pass _ _ hw1,
    delPat_ticks_append_ws _ _ hw2]
  show _ = t.takeWhile pyIsSpace ++ delPat ticks3 (delPat fenceJson (pyStrip t)) ++ _
  rw [List.append_assoc]

/-- The modelled `json.loads` is invariant under surrounding JSON
whitespace, as the real decoder is. -/
theorem jsonLoadsFrag_invariant : JsonWsInvariant jsonLoadsFrag := by
  intro w1 w2 s hw1 hw2
  unfold jsonLoadsFrag jsonTrim
  rw [trimBy_absorb (List.all_eq_true.mp hw1) (List.all_eq_true.mp hw2)]

/-- Claim C6, amended: for every response text whose leading and trailing
Python whitespace consists only of JSON whitespace (space, tab, LF, CR),
the fenced and the bare response clean up to texts with identical parses
under every parser that is invariant to surrounding JSON whitespace, as
`json.loads` is.  (For other texts the two can parse differently: see the
counterexample.) -/
theorem c6_amended (t : List Char)
    (h1 : (t.takeWhile pyIsSpace).all isJsonWs)
    (h2 : ((t.dropWhile pyIsSpace).reverse.takeWhile pyIsSpace).all isJsonWs) :
    claimC6 t := by
  intro α parse hpar
  rw [cleaned_wrapFence]
  exact hpar _ _ _ h1 (by simpa [List.all_reverse] using h2)

/-- Witness for the amended C6 at a concrete fenced response with ordinary
spaces around the payload. -/
theorem c6_witness :
    ((" [1] ".toList.takeWhile pyIsSpace).all isJsonWs ∧
      ((" [1] ".toList.dropWhile pyIsSpace).reverse.takeWhile pyIsSpace).all isJsonWs) ∧
    claimC6 " [1] ".toList :=
  ⟨⟨by decide, by decide⟩, c6_amended " [1] ".toList (by decide) (by decide)⟩

/-- Claim C6 as stated is false: for the response text `"\x0b[\"x\"]"`
(vertical tab, a character `str.strip()` removes but `json.loads` does not
accept), the bare response cleans to `"[\"x\"]"` and parses, while the
fenced response cleans to `"\x0b[\"x\"]"` — the strip happens before fence
removal, so the vertical tab survives — and the parse fails. -/
theorem c6_counterexample : ¬ claimC6 ('\x0b' :: "[\"x\"]".toList) := by
  intro h
  have h2 := h jsonLoadsFrag jsonLoadsFrag_invariant
  rw [show cleaned (wrapFence ('\x0b' :: "[\"x\"]".toList)) = '\x0b' :: "[\"x\"]".toList from by decide,
    show cleaned ('\x0b' :: "[\"x\"]".toList) = "[\"x\"]".toList from by decide] at h2
  exact absurd h2 (by decide)

/-- If a string does not start with a backtick, neither does its `"```"`
deletion. -/
theorem delPat_ticks_head : ∀ r : List Char,
    ¬ (['`'] <+: r) → ¬ (['`'] <+: delPat ticks3 r) := by
  intro r h
  cases r with
  | nil => rw [delPat_nil]; exact h
  | cons c r' =>
    have hne : ¬ ticks3 <+: c :: r' := fun hcontra =>
      h ((by decide : (['`'] : List Char) <+: ticks3).trans hcontra)
    rw [delPat_cons_neg hne]
    intro hcontra
    rw [List.cons_prefix_cons] at hcontra
    exact h (by rw [List.cons_prefix_cons]; exact ⟨hcontra.1, List.nil_prefix⟩)

/-- If a string does not start with two backticks, neither does its `"```"`
deletion. -/
theorem delPat_ticks_head2 : ∀ r : List Char,
    ¬ (['`', '`'] <+: r) → ¬ (['`', '`'] <+: delPat ticks3 r) := by
  intro r h
  cases r with
  | nil => rw [delPat_nil]; exact h
  | cons c r' =>
    have hne : ¬ ticks3 <+: c :: r' := fun hcontra =>
      h ((by decide : (['`', '`'] : List Char) <+: ticks3).trans hcontra)
    rw [delPat_cons_neg hne]
    intro hcontra
    rw [List.cons_prefix_cons] at hcontra
    obtain ⟨rfl, h1⟩ := hcontra
    have hr' : ¬ (['`'] <+: r') := by
      intro hcontra2
      apply h
      rw [List.cons_prefix_cons]
      exact ⟨rfl, hcontra2⟩
    exact delPat_ticks_head r' hr' h1

/-- After `replace("```", "")`, no occurrence of `"```"` remains anywhere in
the string: deletions within a backtick run leave at most two consecutive
backticks, and runs separated by other characters never merge. -/
theorem delPat_ticks_no_infix : ∀ s : List Char, ¬ (ticks3 <:+: delPat ticks3 s) := by
  have hne : (ticks3 : List Char) ≠ [] := by decide
  suffices H : ∀ (n : Nat) (s : List Char), s.length ≤ n →
      ¬ (ticks3 <:+: delPat ticks3 s) by
    intro s
    exact H s.length s le_rfl
  intro n
  induction n with
  | zero =>
    intro s hs
    have h0 : s = [] := List.length_eq_zero.mp (Nat.le_zero.mp hs)
    subst h0
    rw [delPat_nil, List.infix_nil]
    decide
  | succ n ih =>
    intro s hs
    by_cases h3 : ticks3 <+: s
    · obtain ⟨u, hu⟩ := h3
      have hul : u.length ≤ n := by
        have := congrArg List.length hu
        simp [ticks3] at this
        omega
      rw [← hu, delPat_pos hne (List.prefix_append _ _), List.drop_left]
      exact ih u hul
    · cases s with
      | nil =>
        rw [delPat_nil, List.infix_nil]
        decide
      | cons c r =>
        rw [delPat_cons_neg h3]
        intro habs
        rcases List.infix_cons_iff.mp habs with hpre | hinf
        · rw [show (ticks3 : List Char) = '`' :: '`' :: '`' :: [] from by decide,
            List.cons_prefix_cons] at hpre
          obtain ⟨rfl, hpre2⟩ := hpre
          have hr2 : ¬ (['`', '`'] <+: r) := by
            intro hcontra
            apply h3
            rw [show (ticks3 : List Char) = '`' :: '`' :: '`' :: [] from by decide,
              List.cons_prefix_cons]
            exact ⟨rfl, hcontra⟩
          exact delPat_ticks_head2 r hr2 hpre2
        · exact ih r (by simp at hs; omega) hinf

/-- Claim C10: the cleanup deletes `"```json"` and `"```"` occurrences
everywhere, not only a leading/trailing fence pair — no `"```"` (hence no
`"```json"`) survives in the cleaned text of any response — so triple
backticks written inside a JSON string value are deleted before parsing and
the parsed records differ from the payload as written: the response
`["a```b"]` cleans to `["ab"]` and parses to the single string `"ab"`,
not the string `"a```b"` the payload denotes. -/
theorem c10_fences_deleted_everywhere :
    (∀ s : List Char, ¬ (ticks3 <:+: cleaned s)) ∧
    (∀ s : List Char, ¬ (fenceJson <:+: cleaned s)) ∧
    cleaned "[\"a```b\"]".toList = "[\"ab\"]".toList ∧
    jsonLoadsFrag (cleaned "[\"a```b\"]".toList) = some ["ab".toList] ∧
    jsonLoadsFrag "[\"a```b\"]".toList = some ["a```b".toList] ∧
    (["ab".toList] : List (List Char)) ≠ ["a```b".toList] := by
  refine ⟨fun s => delPat_ticks_no_infix _, ?_, by decide, by decide, by decide, by decide⟩
  intro s habs
  exact delPat_ticks_no_infix (delPat fenceJson (pyStrip s))
    ((by decide : (ticks3 : List Char) <:+: fenceJson).trans habs)
